import Mathlib

/-!
# Verification of the cxx bridge core (include/cxx.h and tests/ffi)

A shallow embedding of the `rust::` wrapper types declared in
`src/include/cxx.h` (Slice, Box, Fn, Error) and of the conformance test
functions in `src/tests/ffi/tests.cc`, together with proofs of the spec's
claims about them.

Pointers are modelled as natural numbers (`0` plays the role of the null
pointer only where a definition mentions it; an empty `Box` is modelled by
`Option.none`, matching the `ptr == nullptr` representation).  Machine
integers are modelled as `Nat` with an explicit `% 2^w` at every point the
C++ code performs a narrowing conversion or unsigned wraparound.
-/

namespace Cxx

/-- A machine address.  `C++` object addresses are never null, which callers
express as `p ≠ 0` where it matters. -/
abbrev Ptr := Nat

/-- Abstract contents of memory, byte-addressed.  Used only to state that an
operation does *not* inspect memory. -/
abbrev Mem := Ptr → UInt8

/-! ## rust::Slice (src/include/cxx.h lines 108-142)

`Slice<T>` stores a private `Repr { const T *ptr; size_t len; }`.  The
element type plays no role in the claims (the header notes it is only used
for `&[u8]`), so the embedding keeps just the `{pointer, length}` pair. -/

/-- The `Slice<T>::Repr` struct: `{ const T *ptr; size_t len; }`. -/
structure Slice where
  ptr : Ptr
  len : Nat
  deriving DecidableEq, Repr

namespace Slice

/-- `Slice(const T *s, size_t size) : repr(Repr{s, size})`.
The constructor receives the whole of memory `mem` as an explicit parameter
to make it visible that the source constructor body never reads the bytes
behind `s`: the result cannot depend on `mem`. -/
def construct (mem : Mem) (s : Ptr) (size : Nat) : Slice :=
  let _ := mem
  { ptr := s, len := size }

/-- `Slice() noexcept : repr(Repr{reinterpret_cast<const T *>(this), 0})`:
the default constructor points the slice at its own address `self` with
length `0`. -/
def default (self : Ptr) : Slice :=
  { ptr := self, len := 0 }

/-- `Slice(const Slice<T> &) noexcept = default`: a member-wise (shallow)
copy of the `Repr` pair. -/
def copy (s : Slice) : Slice :=
  { ptr := s.ptr, len := s.len }

/-- `const T *data() const noexcept { return this->repr.ptr; }` -/
def data (s : Slice) : Ptr := s.ptr

/-- `size_t size() const noexcept { return this->repr.len; }` -/
def size (s : Slice) : Nat := s.len

/-- `size_t length() const noexcept { return this->repr.len; }` -/
def length (s : Slice) : Nat := s.len

end Slice

/-! ## rust::Fn (src/include/cxx.h lines 224-242, 287-295)

`Fn<Ret(Args...), Throws>` stores a trampoline function pointer
`Ret (*trampoline)(Args..., void *fn)` and an opaque context pointer
`void *fn`.  The embedding abstracts the argument tuple `Args...` as one
type `A` and the return type as `R`; the context pointer is a `Ptr`. -/

/-- The two data members of `Fn<Ret(Args...), Throws>`. -/
structure Fn (A R : Type) where
  trampoline : A → Ptr → R
  fn : Ptr

namespace Fn

/-- `Ret operator()(Args... args) const { return
(*this->trampoline)(std::move(args)..., this->fn); }`: forward the
arguments, then the context pointer, to the trampoline. -/
def call {A R : Type} (f : Fn A R) (args : A) : R :=
  f.trampoline args f.fn

/-- `Fn operator*() const noexcept { return *this; }`: dereferencing yields
a copy of the reference itself. -/
def deref {A R : Type} (f : Fn A R) : Fn A R :=
  f

end Fn

/-! ## rust::Box, pointer level (src/include/cxx.h lines 144-222)

The data representation of `Box<T>` is a single field `T *ptr`; an empty
box (`ptr == nullptr`) is `none`. -/

/-- The single data member `T *ptr` of `Box<T>`; `none` is `nullptr`. -/
structure BoxRepr where
  ptr : Option Ptr
  deriving DecidableEq, Repr

namespace BoxRepr

/-- `T *into_raw() noexcept { T *raw = this->ptr; this->ptr = nullptr;
return raw; }`: returns the raw pointer and the box as it is left behind. -/
def into_raw (b : BoxRepr) : Option Ptr × BoxRepr :=
  (b.ptr, { ptr := none })

/-- `static Box from_raw(T *raw) noexcept { Box box; box.ptr = raw; return
box; }` -/
def from_raw (raw : Option Ptr) : BoxRepr :=
  { ptr := raw }

end BoxRepr

/-! ## rust::Box, heap level (src/include/cxx.h lines 164-174)

`operator=(const Box &other)` reads and writes the pointees, so its
embedding carries an explicit heap: `mem p = some v` means address `p` is a
allocated cell currently holding the value `v` (values are abstracted as
naturals), `none` means `p` is unallocated.  `uninit()` is the Rust-side
allocator; it is modelled as handing out the fresh address `nextPtr`. -/

/-- The heap the boxes allocate from. -/
structure Heap where
  mem : Ptr → Option Nat
  nextPtr : Ptr

/-- Pointwise update of a heap's contents. -/
def writeMem (f : Ptr → Option Nat) (p : Ptr) (v : Option Nat) : Ptr → Option Nat :=
  fun q => if q = p then v else f q

/-- `Box &operator=(const Box &other)` for two *distinct* box objects (the
`this != &other` guard has been passed):
```
if (this->ptr) { **this = *other; }
else { this->uninit(); ::new (this->ptr) T(*other); }
```
`none` is returned where the C++ has undefined behavior (dereferencing an
empty `other`, or a pointee that is not an allocated cell). -/
def box_copy_assign (h : Heap) (tgt src : BoxRepr) : Option (Heap × BoxRepr) :=
  match src.ptr with
  | none => none
  | some ps =>
    match h.mem ps with
    | none => none
    | some v =>
      match tgt.ptr with
      | some pt =>
        match h.mem pt with
        | none => none
        | some _ => some ({ h with mem := writeMem h.mem pt (some v) }, tgt)
      | none =>
        some ({ mem := writeMem h.mem h.nextPtr (some v), nextPtr := h.nextPtr + 1 },
              { ptr := some h.nextPtr })

/-- A concrete two-cell heap for the copy-assign witness: cell `0` holds
`7`, cell `1` holds `9`, the next fresh address is `2`. -/
def heap0 : Heap :=
  { mem := fun q => if q = 0 then some 7 else if q = 1 then some 9 else none,
    nextPtr := 2 }

/-! ## tests/ffi/tests.cc: the vector-taking test functions (lines 165-182) -/

/-- The shared struct's `z` field is a `size_t`; only `z` is read by the
functions under test. -/
structure Shared where
  z : Nat
  deriving DecidableEq, Repr

/-- `void c_take_vec_u8(const ::rust::Vec<uint8_t>& v)`:
```
auto cv = static_cast<std::vector<uint8_t>>(v);
uint8_t sum = std::accumulate(cv.begin(), cv.end(), 0);
if (sum == 200) { cxx_test_suite_set_correct(); }
```
`std::accumulate` with the `int` initializer `0` sums the bytes exactly; the
initialization of the `uint8_t` then truncates that sum modulo `2^8`.  The
returned `Bool` is whether `cxx_test_suite_set_correct` is called. -/
def c_take_vec_u8 (v : List (Fin 256)) : Bool :=
  ((v.map Fin.val).sum % 256) == 200

/-- `void c_take_vec_shared(const ::rust::Vec<Shared>& v)`:
```
uint32_t sum = 0;
for (auto i: cv) { sum += i.z; }
if (sum == 2021) { cxx_test_suite_set_correct(); }
```
Each `sum += i.z` converts the `size_t` operand and wraps modulo `2^32`.
The returned `Bool` is whether `cxx_test_suite_set_correct` is called. -/
def c_take_vec_shared (v : List Shared) : Bool :=
  (v.foldl (fun sum i => (sum + i.z) % 2 ^ 32) 0) == 2021

/-! ## The error channel (src/include/cxx.h lines 244-257, spec §4.6/§8)

`rust::Error` stores a message span `Str::Repr msg`.  The embedding keeps
the message the span refers to. -/

/-- The `rust::Error` exception object: its `Str::Repr msg` member, read as
the string it spans. -/
structure Error where
  msg : String
  deriving DecidableEq, Repr

/-- Modelled from the spec: the body of `rust::Error::what()` lives in
cxx.cc, which is not under src/ (only the declaration at
src/include/cxx.h line 252 is).  Per spec §4.6 the error value is a
"borrowed message span packaged as a throwable error object", so `what()`
reads back the carried message. -/
def Error.what (e : Error) : String := e.msg

/-- Modelled from the spec: `r_try_return_primitive` is a Rust-side
function of tests/ffi/lib.rs, which is not under src/ (tests.cc only calls
it).  Per spec §8, "the corresponding successful fallible call must return
`2020`".  A fallible boundary call is modelled as `Except Error`. -/
def r_try_return_primitive : Except Error Nat := .ok 2020

/-- Modelled from the spec: `r_fail_return_primitive` is a Rust-side
function of tests/ffi/lib.rs, which is not under src/ (tests.cc only calls
it).  Per spec §8, "a call designed to fail must, on the consumer side, be
caught as an error whose message is exactly `\"rust error\"` (fixed
fallback)".  The thrown `rust::Error` is modelled as `Except.error`. -/
def r_fail_return_primitive : Except Error Nat := .error { msg := "rust error" }

/-! ## rust::Box, ownership level (src/include/cxx.h lines 146-221)

To state the box invariant over whole operation sequences, the embedding
tracks, for a world of box objects (named by `Nat` identifiers), which
producing-side allocation each box's `T *ptr` refers to.  `live p = true`
means address `p` is an allocation handed out by `uninit()` and not yet
released by `drop()`; `extracted p = true` means `p` was returned by an
`into_raw` and not yet reclaimed by `from_raw`.  The allocator hands out
the fresh address `nextPtr`.  Each constructor/operator of `Box<T>` is one
`BoxOp`; `step` returns `none` where the C++ has undefined behavior
(dereferencing an empty box; `from_raw` on a pointer that did not come from
`into_raw`), and a well-defined successor state otherwise. -/

/-- One `Box<T>` operation, naming the box objects it involves. -/
inductive BoxOp where
  /-- `Box(const T &)`, `Box(T &&)` or `in_place(...)`: a new box `b`
  allocates with `uninit()` and constructs the value into it. -/
  | construct (b : Nat)
  /-- `Box(const Box &other) : Box(*other)`: a new box `b` deep-copies the
  pointee of `src`. -/
  | copyConstruct (b src : Nat)
  /-- `Box(Box &&other) noexcept : ptr(other.ptr) { other.ptr = nullptr; }` -/
  | moveConstruct (b src : Nat)
  /-- `operator=(const Box &other)` -/
  | copyAssign (tgt src : Nat)
  /-- `operator=(Box &&other) noexcept` -/
  | moveAssign (tgt src : Nat)
  /-- `into_raw()` on box `b`. -/
  | intoRaw (b : Nat)
  /-- `from_raw(p)` constructing a new box `b`. -/
  | fromRaw (b : Nat) (p : Ptr)
  /-- `~Box()` on box `b`. -/
  | destruct (b : Nat)
  deriving DecidableEq, Repr

/-- The world the boxes live in: every box object's `T *ptr` (`none` both
for a null pointer and for a box identifier not in use), the live
allocations, the raw pointers currently escaped via `into_raw`, and the
allocator's next fresh address. -/
structure BoxWorld where
  boxes : Nat → Option Ptr
  live : Ptr → Bool
  extracted : Ptr → Bool
  nextPtr : Ptr

/-- Pointwise update of the box table. -/
def updBox (f : Nat → Option Ptr) (b : Nat) (v : Option Ptr) : Nat → Option Ptr :=
  fun b' => if b' = b then v else f b'

/-- Pointwise update of a boolean set of pointers. -/
def setPtr (f : Ptr → Bool) (p : Ptr) (v : Bool) : Ptr → Bool :=
  fun q => if q = p then v else f q

/-- The empty world: no boxes, no allocations, nothing extracted. -/
def initWorld : BoxWorld :=
  { boxes := fun _ => none, live := fun _ => false,
    extracted := fun _ => false, nextPtr := 0 }

/-- One `Box<T>` operation on the world.  A box identifier used to
construct a new box must be unused (`boxes b = none`), mirroring that a
C++ constructor runs on a brand-new object. -/
def step (op : BoxOp) (σ : BoxWorld) : Option BoxWorld :=
  match op with
  | .construct b =>
    match σ.boxes b with
    | some _ => none
    | none =>
      some { boxes := updBox σ.boxes b (some σ.nextPtr),
             live := setPtr σ.live σ.nextPtr true,
             extracted := σ.extracted, nextPtr := σ.nextPtr + 1 }
  | .copyConstruct b src =>
    match σ.boxes b, σ.boxes src with
    | none, some _ =>
      some { boxes := updBox σ.boxes b (some σ.nextPtr),
             live := setPtr σ.live σ.nextPtr true,
             extracted := σ.extracted, nextPtr := σ.nextPtr + 1 }
    | _, _ => none
  | .moveConstruct b src =>
    match σ.boxes b with
    | some _ => none
    | none =>
      some { σ with boxes := updBox (updBox σ.boxes b (σ.boxes src)) src none }
  | .copyAssign tgt src =>
    if tgt = src then
      some σ
    else
      match σ.boxes src with
      | none => none
      | some _ =>
        match σ.boxes tgt with
        | some _ => some σ
        | none =>
          some { boxes := updBox σ.boxes tgt (some σ.nextPtr),
                 live := setPtr σ.live σ.nextPtr true,
                 extracted := σ.extracted, nextPtr := σ.nextPtr + 1 }
  | .moveAssign tgt src =>
    some { boxes := updBox (updBox σ.boxes tgt (σ.boxes src)) src none,
           live := match σ.boxes tgt with
                   | some p => setPtr σ.live p false
                   | none => σ.live,
           extracted := σ.extracted, nextPtr := σ.nextPtr }
  | .intoRaw b =>
    some { boxes := updBox σ.boxes b none,
           live := σ.live,
           extracted := match σ.boxes b with
                        | some p => setPtr σ.extracted p true
                        | none => σ.extracted,
           nextPtr := σ.nextPtr }
  | .fromRaw b p =>
    match σ.boxes b with
    | some _ => none
    | none =>
      if σ.extracted p then
        some { boxes := updBox σ.boxes b (some p),
               live := σ.live,
               extracted := setPtr σ.extracted p false,
               nextPtr := σ.nextPtr }
      else none
  | .destruct b =>
    some { boxes := updBox σ.boxes b none,
           live := match σ.boxes b with
                   | some p => setPtr σ.live p false
                   | none => σ.live,
           extracted := σ.extracted, nextPtr := σ.nextPtr }

/-- Run a sequence of box operations from a state; `none` as soon as one
step is undefined. -/
def runOps (ops : List BoxOp) (σ : BoxWorld) : Option BoxWorld :=
  match ops with
  | [] => some σ
  | op :: rest =>
    match step op σ with
    | none => none
    | some σ' => runOps rest σ'

/-- The ownership invariant: every non-empty box holds a live pointer; an
extracted pointer is live; no two boxes hold the same pointer; no box holds
an extracted pointer; live pointers are below the allocator's watermark. -/
structure WorldInv (σ : BoxWorld) : Prop where
  boxLive : ∀ b p, σ.boxes b = some p → σ.live p = true
  extLive : ∀ p, σ.extracted p = true → σ.live p = true
  boxUniq : ∀ b b' p, σ.boxes b = some p → σ.boxes b' = some p → b = b'
  boxNotExtracted : ∀ b p, σ.boxes b = some p → σ.extracted p = false
  liveBounded : ∀ p, σ.live p = true → p < σ.nextPtr

/-! ## tests/ffi/tests.cc: `cxx_run_test` (lines 224-271)

`cxx_run_test` runs a fixed battery of `ASSERT(x)` checks; the macro
(lines 227-232) returns, at the first failing check, the string
`"Assertion failed: ` + #x + `, " __FILE__ ":" TOSTRING(__LINE__)`, and
`nullptr` after all checks pass, having called `cxx_test_suite_set_correct`
(line 269).  The Rust-side functions `r_*` it calls live in
tests/ffi/lib.rs, which is not under src/, so their observable results are
a parameter (`TestEnv`) modelled from the spec's conformance matrix. -/

/-- One `ASSERT(x)` of `cxx_run_test`: the evaluated condition, the
stringified expression `#x` and the `__LINE__` it occurs on. -/
structure Check where
  cond : Bool
  expr : String
  line : Nat
  deriving DecidableEq, Repr

/-- The `__FILE__` of the assertions. -/
def srcFile : String := "tests/ffi/tests.cc"

/-- The string built by the `ASSERT` macro at a failing check. -/
def assertMsg (c : Check) : String :=
  "Assertion failed: `" ++ c.expr ++ "`, " ++ srcFile ++ ":" ++ toString c.line

/-- Modelled from the spec: the opaque Rust object returned by
`r_return_r2` (tests/ffi/lib.rs, not under src/).  Per spec §8's mutation
round trip, `set` stores the given value and returns it, and `get` reads
the stored value back. -/
structure R2 where
  n : Nat
  deriving DecidableEq, Repr

/-- `r2->get()`. -/
def R2.get (r : R2) : Nat := r.n

/-- `r2->set(n)`: the returned value and the object afterwards. -/
def R2.set (r : R2) (n : Nat) : Nat × R2 :=
  let _ := r
  (n, { n := n })

/-- Modelled from the spec: the observable results of the Rust-side `r_*`
functions of tests/ffi/lib.rs (not under src/), one field per call
`cxx_run_test` makes.  A Rust-side failure crosses the boundary only as a
thrown `rust::Error` (spec §4.6), so the fallible call is an
`Except Error Nat`. -/
structure TestEnv where
  r_return_primitive : Nat
  r_return_shared_z : Nat
  r_box_is_correct : Bool
  r_return_unique_ptr_get : Nat
  r_return_ref_z : Nat
  r_return_str : String
  r_return_rust_string : String
  r_return_unique_ptr_string : String
  r_try_return_primitive_v : Nat
  r_fail_result : Except Error Nat
  r2_init : Nat → Nat

/-- The assertions of `cxx_run_test` in source order (lines 234-267).  The
`try`/`catch` block at lines 255-260 contributes `ASSERT(false)` when
`r_fail_return_primitive` returns normally, and the message comparison when
it throws.  The intervening `r_take_*` calls (lines 243-252) assert
nothing. -/
def checks (env : TestEnv) : List Check :=
  let failCheck : Check :=
    match env.r_fail_result with
    | .ok _ => { cond := false, expr := "false", line := 257 }
    | .error e => { cond := e.what == "rust error",
                    expr := "std::strcmp(e.what(), \"rust error\") == 0", line := 259 }
  let r2 : R2 := { n := env.r2_init 2020 }
  let s1 := r2.set 2021
  let s2 := s1.2.set 2020
  [{ cond := env.r_return_primitive == 2020,
     expr := "r_return_primitive() == 2020", line := 234 },
   { cond := env.r_return_shared_z == 2020,
     expr := "r_return_shared().z == 2020", line := 235 },
   { cond := env.r_box_is_correct,
     expr := "cxx_test_suite_r_is_correct(&*r_return_box())", line := 236 },
   { cond := env.r_return_unique_ptr_get == 2020,
     expr := "r_return_unique_ptr()->get() == 2020", line := 237 },
   { cond := env.r_return_ref_z == 2020,
     expr := "r_return_ref(Shared\x7b2020\x7d) == 2020", line := 238 },
   { cond := env.r_return_str == "2020",
     expr := "std::string(r_return_str(Shared\x7b2020\x7d)) == \"2020\"", line := 239 },
   { cond := env.r_return_rust_string == "2020",
     expr := "std::string(r_return_rust_string()) == \"2020\"", line := 240 },
   { cond := env.r_return_unique_ptr_string == "2020",
     expr := "*r_return_unique_ptr_string() == \"2020\"", line := 241 },
   { cond := env.r_try_return_primitive_v == 2020,
     expr := "r_try_return_primitive() == 2020", line := 254 },
   failCheck,
   { cond := r2.get == 2020, expr := "r2->get() == 2020", line := 263 },
   { cond := s1.1 == 2021, expr := "r2->set(2021) == 2021", line := 264 },
   { cond := s1.2.get == 2021, expr := "r2->get() == 2021", line := 265 },
   { cond := s2.1 == 2020, expr := "r2->set(2020) == 2020", line := 266 },
   { cond := s2.2.get == 2020, expr := "r2->get() == 2020", line := 267 }]

/-- `extern "C" const char *cxx_run_test() noexcept`: runs the checks in
order; the first failing one returns its `ASSERT` message and nothing after
it executes, otherwise `cxx_test_suite_set_correct()` is called and
`nullptr` is returned.  The result is the returned message (`none` for
`nullptr`) paired with whether `cxx_test_suite_set_correct` ran. -/
def cxx_run_test (env : TestEnv) : Option String × Bool :=
  match (checks env).find? (fun c => !c.cond) with
  | some c => (some (assertMsg c), false)
  | none => (none, true)

end Cxx

/-! # Theorems -/

namespace Cxx

/-- C6: constructing `Slice<T>(p, n)` never reads the referenced bytes (the
result is the same under any two memories), and yields a slice whose
`data()` is exactly `p` and whose `size()` and `length()` are exactly `n`;
copying a slice reproduces the `{pointer, length}` pair unchanged. -/
theorem slice_construct_spec :
    (∀ (mem mem' : Mem) (p : Ptr) (n : Nat),
      Slice.construct mem p n = Slice.construct mem' p n)
    ∧ (∀ (mem : Mem) (p : Ptr) (n : Nat),
        (Slice.construct mem p n).data = p
        ∧ (Slice.construct mem p n).size = n
        ∧ (Slice.construct mem p n).length = n)
    ∧ (∀ s : Slice, s.copy = s ∧ (s.copy).data = s.data ∧ (s.copy).size = s.size) := by
  refine ⟨fun mem mem' p n => rfl, fun mem p n => ⟨rfl, rfl, rfl⟩, fun s => ⟨rfl, rfl, rfl⟩⟩

/-- C10: a default-constructed `Slice<T>` has `size() = 0` and
`length() = 0`, and its `data()` pointer is the address of the slice object
itself — in particular it is not null, since a live C++ object's address
`self` is never the null pointer. -/
theorem slice_default_spec (self : Ptr) (hself : self ≠ 0) :
    (Slice.default self).size = 0
    ∧ (Slice.default self).length = 0
    ∧ (Slice.default self).data = self
    ∧ (Slice.default self).data ≠ 0 := by
  exact ⟨rfl, rfl, rfl, hself⟩

/-- Witness for `slice_default_spec` at the concrete object address 16. -/
theorem slice_default_spec_witness :
    (Slice.default 16).size = 0
    ∧ (Slice.default 16).length = 0
    ∧ (Slice.default 16).data = 16
    ∧ (Slice.default 16).data ≠ 0 :=
  slice_default_spec 16 (by decide)

/-- C5: invoking a callable reference `Fn` calls its stored trampoline with
the arguments followed by the stored context pointer and returns the
trampoline's result unchanged, and `*f` returns a copy of `f` holding the
same trampoline and context pointers. -/
theorem fn_call_deref_spec (A R : Type) (f : Fn A R) (args : A) :
    f.call args = f.trampoline args f.fn
    ∧ f.deref = f
    ∧ (f.deref).trampoline = f.trampoline
    ∧ (f.deref).fn = f.fn :=
  ⟨rfl, rfl, rfl, rfl⟩

/-- Reading an updated box table: a `some` entry is either the updated one
or an untouched one. -/
theorem updBox_eq_some (f : Nat → Option Ptr) (b : Nat) (v : Option Ptr)
    (b' : Nat) (p : Ptr) (h : updBox f b v b' = some p) :
    (b' = b ∧ v = some p) ∨ (b' ≠ b ∧ f b' = some p) := by
  by_cases hb : b' = b
  · left
    refine ⟨hb, ?_⟩
    simpa [updBox, hb] using h
  · right
    refine ⟨hb, ?_⟩
    simpa [updBox, hb] using h

/-- Reading an updated pointer set. -/
theorem setPtr_eq_true (f : Ptr → Bool) (p : Ptr) (v : Bool)
    (q : Ptr) (h : setPtr f p v q = true) :
    (q = p ∧ v = true) ∨ (q ≠ p ∧ f q = true) := by
  by_cases hq : q = p
  · left
    refine ⟨hq, ?_⟩
    simpa [setPtr, hq] using h
  · right
    refine ⟨hq, ?_⟩
    simpa [setPtr, hq] using h

theorem updBox_self (f : Nat → Option Ptr) (b : Nat) (v : Option Ptr) :
    updBox f b v b = v := by
  simp [updBox]

theorem updBox_other (f : Nat → Option Ptr) (b : Nat) (v : Option Ptr)
    (b' : Nat) (h : b' ≠ b) : updBox f b v b' = f b' := by
  simp [updBox, h]

theorem setPtr_self (f : Ptr → Bool) (p : Ptr) (v : Bool) :
    setPtr f p v p = v := by
  simp [setPtr]

theorem setPtr_other (f : Ptr → Bool) (p : Ptr) (v : Bool)
    (q : Ptr) (h : q ≠ p) : setPtr f p v q = f q := by
  simp [setPtr, h]

/-- A fresh allocation preserves the ownership invariant (the common core
of `construct`, `copyConstruct` and the allocating branch of
`copyAssign`). -/
theorem alloc_inv (σ : BoxWorld) (b : Nat) (inv : WorldInv σ) :
    WorldInv { boxes := updBox σ.boxes b (some σ.nextPtr),
               live := setPtr σ.live σ.nextPtr true,
               extracted := σ.extracted, nextPtr := σ.nextPtr + 1 } := by
  have boxNotNext : ∀ b', σ.boxes b' ≠ some σ.nextPtr := fun b' hb' =>
    absurd (inv.liveBounded _ (inv.boxLive _ _ hb')) (lt_irrefl _)
  have extNotNext : σ.extracted σ.nextPtr = false := by
    cases hE : σ.extracted σ.nextPtr with
    | false => rfl
    | true => exact absurd (inv.liveBounded _ (inv.extLive _ hE)) (lt_irrefl _)
  refine ⟨?_, ?_, ?_, ?_, ?_⟩
  · intro b' p hp
    dsimp only at hp ⊢
    rcases updBox_eq_some _ _ _ _ _ hp with ⟨_, hv⟩ | ⟨_, hv⟩
    · obtain rfl : σ.nextPtr = p := by simpa using hv
      simp [setPtr_self]
    · by_cases hpn : p = σ.nextPtr
      · simp [hpn, setPtr_self]
      · rw [setPtr_other _ _ _ _ hpn]
        exact inv.boxLive _ _ hv
  · intro p hp
    dsimp only at hp ⊢
    by_cases hpn : p = σ.nextPtr
    · simp [hpn, setPtr_self]
    · rw [setPtr_other _ _ _ _ hpn]
      exact inv.extLive _ hp
  · intro b1 b2 p h1 h2
    dsimp only at h1 h2
    rcases updBox_eq_some _ _ _ _ _ h1 with ⟨e1, hv1⟩ | ⟨e1, hv1⟩ <;>
      rcases updBox_eq_some _ _ _ _ _ h2 with ⟨e2, hv2⟩ | ⟨e2, hv2⟩
    · rw [e1, e2]
    · obtain rfl : σ.nextPtr = p := by simpa using hv1
      exact absurd hv2 (boxNotNext b2)
    · obtain rfl : σ.nextPtr = p := by simpa using hv2
      exact absurd hv1 (boxNotNext b1)
    · exact inv.boxUniq _ _ _ hv1 hv2
  · intro b' p hp
    dsimp only at hp ⊢
    rcases updBox_eq_some _ _ _ _ _ hp with ⟨_, hv⟩ | ⟨_, hv⟩
    · obtain rfl : σ.nextPtr = p := by simpa using hv
      exact extNotNext
    · exact inv.boxNotExtracted _ _ hv
  · intro p hp
    dsimp only at hp ⊢
    rcases setPtr_eq_true _ _ _ _ hp with ⟨hq, _⟩ | ⟨_, hq⟩
    · subst hq
      exact Nat.lt_succ_self _
    · exact Nat.lt_succ_of_lt (inv.liveBounded _ hq)

/-- Decomposing a read of the pointer-transfer table used by
move-construction and move-assignment. -/
theorem transfer_eq_some (σ : BoxWorld) (tgt src b' : Nat) (p : Ptr)
    (h : updBox (updBox σ.boxes tgt (σ.boxes src)) src none b' = some p) :
    b' ≠ src ∧ ((b' = tgt ∧ σ.boxes src = some p)
      ∨ (b' ≠ tgt ∧ σ.boxes b' = some p)) := by
  rcases updBox_eq_some _ _ _ _ _ h with ⟨_, hv⟩ | ⟨hne, hv⟩
  · exact absurd hv (by simp)
  · exact ⟨hne, updBox_eq_some _ _ _ _ _ hv⟩

/-- Transferring a pointer from `src` to box `tgt` preserves the ownership
invariant (move-construction; move-assignment adds a free). -/
theorem transfer_inv (σ : BoxWorld) (tgt src : Nat) (inv : WorldInv σ) :
    WorldInv { σ with boxes := updBox (updBox σ.boxes tgt (σ.boxes src)) src none } := by
  refine ⟨?_, inv.extLive, ?_, ?_, inv.liveBounded⟩
  · intro b' p hp
    rcases transfer_eq_some _ _ _ _ _ hp with ⟨_, ⟨_, hv⟩ | ⟨_, hv⟩⟩ <;>
      exact inv.boxLive _ _ hv
  · intro b1 b2 p h1 h2
    rcases transfer_eq_some _ _ _ _ _ h1 with ⟨hs1, ⟨e1, hv1⟩ | ⟨e1, hv1⟩⟩ <;>
      rcases transfer_eq_some _ _ _ _ _ h2 with ⟨hs2, ⟨e2, hv2⟩ | ⟨e2, hv2⟩⟩
    · rw [e1, e2]
    · exact absurd (inv.boxUniq src b2 p hv1 hv2).symm hs2
    · exact absurd (inv.boxUniq src b1 p hv2 hv1).symm hs1
    · exact inv.boxUniq _ _ _ hv1 hv2
  · intro b' p hp
    rcases transfer_eq_some _ _ _ _ _ hp with ⟨_, ⟨_, hv⟩ | ⟨_, hv⟩⟩ <;>
      exact inv.boxNotExtracted _ _ hv

/-- Emptying one box (into_raw's `this->ptr = nullptr`; the destructor's end
of life) preserves the ownership invariant when liveness is untouched. -/
theorem clearBox_inv (σ : BoxWorld) (b : Nat) (inv : WorldInv σ) :
    WorldInv { σ with boxes := updBox σ.boxes b none } := by
  refine ⟨?_, inv.extLive, ?_, ?_, inv.liveBounded⟩
  · intro b' p hp
    rcases updBox_eq_some _ _ _ _ _ hp with ⟨_, hv⟩ | ⟨_, hv⟩
    · exact absurd hv (by simp)
    · exact inv.boxLive _ _ hv
  · intro b1 b2 p h1 h2
    rcases updBox_eq_some _ _ _ _ _ h1 with ⟨_, hv1⟩ | ⟨_, hv1⟩
    · exact absurd hv1 (by simp)
    · rcases updBox_eq_some _ _ _ _ _ h2 with ⟨_, hv2⟩ | ⟨_, hv2⟩
      · exact absurd hv2 (by simp)
      · exact inv.boxUniq _ _ _ hv1 hv2
  · intro b' p hp
    rcases updBox_eq_some _ _ _ _ _ hp with ⟨_, hv⟩ | ⟨_, hv⟩
    · exact absurd hv (by simp)
    · exact inv.boxNotExtracted _ _ hv

/-- Every defined `Box<T>` operation preserves the ownership invariant. -/
theorem step_inv (op : BoxOp) (σ σ' : BoxWorld)
    (h : step op σ = some σ') (inv : WorldInv σ) : WorldInv σ' := by
  cases op with
  | construct b =>
    cases hb : σ.boxes b with
    | some p => simp [step, hb] at h
    | none =>
      simp only [step, hb] at h
      obtain rfl := Option.some.inj h
      exact alloc_inv σ b inv
  | copyConstruct b src =>
    cases hb : σ.boxes b with
    | some p => simp [step, hb] at h
    | none =>
      cases hsrc : σ.boxes src with
      | none => simp [step, hb, hsrc] at h
      | some p' =>
        simp only [step, hb, hsrc] at h
        obtain rfl := Option.some.inj h
        exact alloc_inv σ b inv
  | moveConstruct b src =>
    cases hb : σ.boxes b with
    | some p => simp [step, hb] at h
    | none =>
      simp only [step, hb] at h
      obtain rfl := Option.some.inj h
      exact transfer_inv σ b src inv
  | copyAssign tgt src =>
    by_cases hts : tgt = src
    · simp only [step, if_pos hts] at h
      obtain rfl := Option.some.inj h
      exact inv
    · cases hsrc : σ.boxes src with
      | none => simp [step, hts, hsrc] at h
      | some p' =>
        cases htgt : σ.boxes tgt with
        | some p'' =>
          simp only [step, if_neg hts, hsrc, htgt] at h
          obtain rfl := Option.some.inj h
          exact inv
        | none =>
          simp only [step, if_neg hts, hsrc, htgt] at h
          obtain rfl := Option.some.inj h
          exact alloc_inv σ tgt inv
  | moveAssign tgt src =>
    simp only [step] at h
    obtain rfl := Option.some.inj h
    cases htgt : σ.boxes tgt with
    | none => exact transfer_inv σ tgt src inv
    | some pt =>
      refine ⟨?_, ?_, (transfer_inv σ tgt src inv).boxUniq,
        (transfer_inv σ tgt src inv).boxNotExtracted, ?_⟩
      · intro b' p hp
        dsimp only at hp ⊢
        rcases transfer_eq_some σ tgt src b' p hp with ⟨hs, ⟨e, hv⟩ | ⟨e, hv⟩⟩
        · have hne : p ≠ pt := by
            intro hpp
            rw [hpp] at hv
            exact hs (by rw [e, ← inv.boxUniq src tgt pt hv htgt])
          rw [setPtr_other _ _ _ _ hne]
          exact inv.boxLive _ _ hv
        · have hne : p ≠ pt := by
            intro hpp
            rw [hpp] at hv
            exact e (inv.boxUniq b' tgt pt hv htgt)
          rw [setPtr_other _ _ _ _ hne]
          exact inv.boxLive _ _ hv
      · intro p hp
        dsimp only at hp ⊢
        have hne : p ≠ pt := by
          intro hpp
          rw [hpp] at hp
          rw [inv.boxNotExtracted tgt pt htgt] at hp
          exact Bool.noConfusion hp
        rw [setPtr_other _ _ _ _ hne]
        exact inv.extLive _ hp
      · intro p hp
        dsimp only at hp ⊢
        rcases setPtr_eq_true _ _ _ _ hp with ⟨_, hfalse⟩ | ⟨_, hq⟩
        · exact Bool.noConfusion hfalse
        · exact inv.liveBounded _ hq
  | intoRaw b =>
    simp only [step] at h
    obtain rfl := Option.some.inj h
    cases hb : σ.boxes b with
    | none => exact clearBox_inv σ b inv
    | some pb =>
      refine ⟨(clearBox_inv σ b inv).boxLive, ?_, (clearBox_inv σ b inv).boxUniq,
        ?_, inv.liveBounded⟩
      · intro p hp
        dsimp only at hp ⊢
        rcases setPtr_eq_true _ _ _ _ hp with ⟨hq, _⟩ | ⟨_, hq⟩
        · rw [hq]
          exact inv.boxLive b pb hb
        · exact inv.extLive _ hq
      · intro b' p hp
        dsimp only at hp ⊢
        rcases updBox_eq_some _ _ _ _ _ hp with ⟨_, hv⟩ | ⟨hne, hv⟩
        · exact absurd hv (by simp)
        · have hppb : p ≠ pb := by
            intro hpp
            rw [hpp] at hv
            exact hne (inv.boxUniq b' b pb hv hb)
          rw [setPtr_other _ _ _ _ hppb]
          exact inv.boxNotExtracted _ _ hv
  | fromRaw b p =>
    cases hb : σ.boxes b with
    | some q => simp [step, hb] at h
    | none =>
      cases hex : σ.extracted p with
      | false => simp [step, hb, hex] at h
      | true =>
        simp only [step, hb, hex, if_true] at h
        obtain rfl := Option.some.inj h
        refine ⟨?_, ?_, ?_, ?_, inv.liveBounded⟩
        · intro b' pp hp
          dsimp only at hp ⊢
          rcases updBox_eq_some _ _ _ _ _ hp with ⟨_, hv⟩ | ⟨_, hv⟩
          · obtain rfl : p = pp := by simpa using hv
            exact inv.extLive _ hex
          · exact inv.boxLive _ _ hv
        · intro pp hp
          dsimp only at hp ⊢
          rcases setPtr_eq_true _ _ _ _ hp with ⟨_, hfalse⟩ | ⟨_, hq⟩
          · exact Bool.noConfusion hfalse
          · exact inv.extLive _ hq
        · intro b1 b2 pp h1 h2
          dsimp only at h1 h2
          rcases updBox_eq_some _ _ _ _ _ h1 with ⟨e1, hv1⟩ | ⟨e1, hv1⟩ <;>
            rcases updBox_eq_some _ _ _ _ _ h2 with ⟨e2, hv2⟩ | ⟨e2, hv2⟩
          · rw [e1, e2]
          · obtain rfl : p = pp := by simpa using hv1
            rw [inv.boxNotExtracted b2 p hv2] at hex
            exact Bool.noConfusion hex
          · obtain rfl : p = pp := by simpa using hv2
            rw [inv.boxNotExtracted b1 p hv1] at hex
            exact Bool.noConfusion hex
          · exact inv.boxUniq _ _ _ hv1 hv2
        · intro b' pp hp
          dsimp only at hp ⊢
          rcases updBox_eq_some _ _ _ _ _ hp with ⟨_, hv⟩ | ⟨_, hv⟩
          · obtain rfl : p = pp := by simpa using hv
            exact setPtr_self _ _ _
          · by_cases hppb : pp = p
            · rw [hppb]
              exact setPtr_self _ _ _
            · rw [setPtr_other _ _ _ _ hppb]
              exact inv.boxNotExtracted _ _ hv
  | destruct b =>
    simp only [step] at h
    obtain rfl := Option.some.inj h
    cases hb : σ.boxes b with
    | none => exact clearBox_inv σ b inv
    | some pb =>
      refine ⟨?_, ?_, (clearBox_inv σ b inv).boxUniq,
        (clearBox_inv σ b inv).boxNotExtracted, ?_⟩
      · intro b' p hp
        dsimp only at hp ⊢
        rcases updBox_eq_some _ _ _ _ _ hp with ⟨_, hv⟩ | ⟨hne, hv⟩
        · exact absurd hv (by simp)
        · have hppb : p ≠ pb := by
            intro hpp
            rw [hpp] at hv
            exact hne (inv.boxUniq b' b pb hv hb)
          rw [setPtr_other _ _ _ _ hppb]
          exact inv.boxLive _ _ hv
      · intro p hp
        dsimp only at hp ⊢
        have hppb : p ≠ pb := by
          intro hpp
          rw [hpp] at hp
          rw [inv.boxNotExtracted b pb hb] at hp
          exact Bool.noConfusion hp
        rw [setPtr_other _ _ _ _ hppb]
        exact inv.extLive _ hp
      · intro p hp
        dsimp only at hp ⊢
        rcases setPtr_eq_true _ _ _ _ hp with ⟨_, hfalse⟩ | ⟨_, hq⟩
        · exact Bool.noConfusion hfalse
        · exact inv.liveBounded _ hq

/-- The empty world satisfies the ownership invariant. -/
theorem initWorld_inv : WorldInv initWorld :=
  ⟨fun b p h => by simp [initWorld] at h,
   fun p h => by simp [initWorld] at h,
   fun b1 b2 p h1 h2 => by simp [initWorld] at h1,
   fun b p h => by simp [initWorld] at h,
   fun p h => by simp [initWorld] at h⟩

/-- A defined run of box operations preserves the ownership invariant. -/
theorem runOps_inv (ops : List BoxOp) : ∀ σ σ' : BoxWorld,
    runOps ops σ = some σ' → WorldInv σ → WorldInv σ' := by
  induction ops with
  | nil =>
    intro σ σ' h hi
    simp only [runOps] at h
    obtain rfl := Option.some.inj h
    exact hi
  | cons op rest ih =>
    intro σ σ' h hi
    simp only [runOps] at h
    cases hs : step op σ with
    | none => rw [hs] at h; exact Option.noConfusion h
    | some σ₁ => rw [hs] at h; exact ih σ₁ σ' h (step_inv op σ σ₁ hs hi)

/-- C1: under every sequence of `Box<T>` operations run from the empty
world, every box is at every observable instant either empty or holding a
pointer to a live allocation; and move-construction and move-assignment
leave the source box empty, and `into_raw` leaves the box it was called on
empty (whenever the corresponding step is defined at all). -/
theorem box_lifecycle_spec :
    (∀ (ops : List BoxOp) (σ : BoxWorld), runOps ops initWorld = some σ →
      ∀ b p, σ.boxes b = some p → σ.live p = true)
    ∧ (∀ (σ σ' : BoxWorld) (b src : Nat),
        step (.moveConstruct b src) σ = some σ' → σ'.boxes src = none)
    ∧ (∀ (σ σ' : BoxWorld) (tgt src : Nat),
        step (.moveAssign tgt src) σ = some σ' → σ'.boxes src = none)
    ∧ (∀ (σ σ' : BoxWorld) (b : Nat),
        step (.intoRaw b) σ = some σ' → σ'.boxes b = none) := by
  refine ⟨?_, ?_, ?_, ?_⟩
  · intro ops σ h b p hb
    exact (runOps_inv ops initWorld σ h initWorld_inv).boxLive b p hb
  · intro σ σ' b src h
    cases hb : σ.boxes b with
    | some p => simp [step, hb] at h
    | none =>
      simp only [step, hb] at h
      obtain rfl := Option.some.inj h
      exact updBox_self _ _ _
  · intro σ σ' tgt src h
    simp only [step] at h
    obtain rfl := Option.some.inj h
    exact updBox_self _ _ _
  · intro σ σ' b h
    simp only [step] at h
    obtain rfl := Option.some.inj h
    exact updBox_self _ _ _

/-- `find?` on a list that starts with passing checks returns the first
failing check. -/
theorem find_first_failing (l₁ l₂ : List Check) (c : Check)
    (h1 : ∀ c' ∈ l₁, c'.cond = true) (hc : c.cond = false) :
    (l₁ ++ c :: l₂).find? (fun c => !c.cond) = some c := by
  induction l₁ with
  | nil => simp [List.find?, hc]
  | cons a t ih =>
    have ha : a.cond = true := h1 a (by simp)
    have ht : ∀ c' ∈ t, c'.cond = true := fun c' hc' => h1 c' (by simp [hc'])
    simpa [List.find?, ha] using ih ht

/-- C8: `cxx_run_test` returns `nullptr` exactly when every assertion of
its battery holds, and `cxx_test_suite_set_correct` is signalled exactly
then; at the first failing assertion (all earlier ones passing) it returns
the non-null `ASSERT` message naming the failing expression and its source
file and line, and the mark-correct signal is not sent. -/
theorem cxx_run_test_spec (env : TestEnv) :
    ((cxx_run_test env).1 = none ↔ ∀ c ∈ checks env, c.cond = true)
    ∧ ((cxx_run_test env).2 = true ↔ (cxx_run_test env).1 = none)
    ∧ (∀ l₁ l₂ c, checks env = l₁ ++ c :: l₂ → (∀ c' ∈ l₁, c'.cond = true) →
        c.cond = false →
        (cxx_run_test env).1
          = some ("Assertion failed: `" ++ c.expr ++ "`, "
              ++ srcFile ++ ":" ++ toString c.line)
        ∧ (cxx_run_test env).2 = false) := by
  refine ⟨?_, ?_, ?_⟩
  · rcases hfind : (checks env).find? (fun c => !c.cond) with _ | c
    · simp only [cxx_run_test, hfind]
      constructor
      · intro _ c hc
        have := List.find?_eq_none.mp hfind c hc
        simpa using this
      · intro _
        trivial
    · simp only [cxx_run_test, hfind]
      constructor
      · intro h
        exact absurd h (by simp)
      · intro hall
        have hcond := List.find?_some hfind
        have hmem := List.mem_of_find?_eq_some hfind
        rw [hall c hmem] at hcond
        exact absurd hcond (by simp)
  · rcases hfind : (checks env).find? (fun c => !c.cond) with _ | c <;>
      simp [cxx_run_test, hfind]
  · intro l₁ l₂ c hsplit h1 hc
    have hfind : (checks env).find? (fun c => !c.cond) = some c := by
      rw [hsplit]
      exact find_first_failing l₁ l₂ c h1 hc
    simp [cxx_run_test, hfind, assertMsg]

/-- Accumulating with a wraparound at every addition is the same as one
wraparound of the exact sum (the loop of `c_take_vec_shared`). -/
theorem foldl_add_mod (l : List Shared) (s : Nat) :
    l.foldl (fun sum i => (sum + i.z) % 2 ^ 32) (s % 2 ^ 32)
      = (s + (l.map Shared.z).sum) % 2 ^ 32 := by
  induction l generalizing s with
  | nil => simp
  | cons i t ih =>
    have step : (s % 2 ^ 32 + i.z) % 2 ^ 32 = (s + i.z) % 2 ^ 32 :=
      Nat.mod_add_mod s (2 ^ 32) i.z
    calc (i :: t).foldl (fun sum i => (sum + i.z) % 2 ^ 32) (s % 2 ^ 32)
        = t.foldl (fun sum i => (sum + i.z) % 2 ^ 32) ((s + i.z) % 2 ^ 32) := by
          simp [List.foldl_cons, step]
      _ = (s + i.z + (t.map Shared.z).sum) % 2 ^ 32 := ih (s + i.z)
      _ = (s + ((i :: t).map Shared.z).sum) % 2 ^ 32 := by
          simp [Nat.add_assoc]

/-- C9: `c_take_vec_u8` truncates the accumulated byte sum to `uint8_t`, so
it signals success exactly when the sum of the bytes is congruent to `200`
modulo `256`; in particular the sequence `[255, 201]`, whose sum is `456`,
is accepted even though `456 ≠ 200`. -/
theorem c_take_vec_u8_mod_256_spec :
    (∀ v : List (Fin 256), c_take_vec_u8 v = true ↔ (v.map Fin.val).sum % 256 = 200)
    ∧ c_take_vec_u8 [255, 201] = true
    ∧ (([255, 201] : List (Fin 256)).map Fin.val).sum = 456
    ∧ 456 % 256 = 200 := by
  refine ⟨fun v => ?_, by decide, by decide, by decide⟩
  simp [c_take_vec_u8]

/-- C7, counterexample to "success is signalled only when the summed total
equals the exact literal sum": the byte sequence `[255, 201]` sums to `456`,
not `200`, yet `c_take_vec_u8` signals success on it. -/
theorem c_take_vec_u8_exact_sum_cex :
    c_take_vec_u8 [255, 201] = true
    ∧ (([255, 201] : List (Fin 256)).map Fin.val).sum ≠ 200 := by
  constructor <;> decide

/-- C7 (amended): `c_take_vec_u8` signals success on `[86, 75, 30, 9]`
(sum exactly `200`) and `c_take_vec_shared` signals success on `z` values
`1010, 1011` (sum exactly `2021`); in general `c_take_vec_u8` signals
success exactly when the byte sum is congruent to `200` modulo `2^8`, and
`c_take_vec_shared` exactly when the `z` sum is congruent to `2021` modulo
`2^32`. -/
theorem c_take_vec_sums_spec :
    c_take_vec_u8 [86, 75, 30, 9] = true
    ∧ c_take_vec_shared [{ z := 1010 }, { z := 1011 }] = true
    ∧ (∀ v : List (Fin 256), c_take_vec_u8 v = true ↔ (v.map Fin.val).sum % 256 = 200)
    ∧ (∀ v : List Shared,
        c_take_vec_shared v = true ↔ (v.map Shared.z).sum % 2 ^ 32 = 2021) := by
  refine ⟨by decide, by decide, fun v => ?_, fun v => ?_⟩
  · simp [c_take_vec_u8]
  · have h := foldl_add_mod v 0
    rw [Nat.zero_mod, Nat.zero_add] at h
    simp only [c_take_vec_shared, beq_iff_eq]
    rw [h]

/-- C2: the fallible boundary call designed to fail surfaces on the C++
side as a thrown `rust::Error` whose `what()` is exactly `"rust error"`,
and the successful fallible call returns `2020`. -/
theorem r_fallible_primitive_spec :
    (∃ e : Error, r_fail_return_primitive = .error e ∧ e.what = "rust error")
    ∧ r_try_return_primitive = .ok 2020 :=
  ⟨⟨{ msg := "rust error" }, rfl, rfl⟩, rfl⟩

/-- C4: copy-assigning a non-empty `source` box into a distinct `target`
box: when the target already holds a value the source's pointee is assigned
into the target's existing cell in place — no allocation happens, the
target keeps its pointer, and no other cell changes; when the target is
empty a fresh cell is allocated and the source's pointee copied into it.
In both cases the target's pointee ends equal to the source's pointee `v`
and the source's cell still holds `v`. -/
theorem box_copy_assign_spec (h : Heap) (tgt src : BoxRepr) (ps v : Nat)
    (hs : src.ptr = some ps) (hv : h.mem ps = some v)
    (hfresh : h.mem h.nextPtr = none) :
    (∀ pt w, tgt.ptr = some pt → h.mem pt = some w →
      ∃ h', box_copy_assign h tgt src = some (h', tgt)
        ∧ h'.nextPtr = h.nextPtr
        ∧ h'.mem pt = some v
        ∧ h'.mem ps = some v
        ∧ (∀ q, q ≠ pt → h'.mem q = h.mem q))
    ∧ (tgt.ptr = none →
      ∃ h', box_copy_assign h tgt src = some (h', { ptr := some h.nextPtr })
        ∧ h'.nextPtr = h.nextPtr + 1
        ∧ h'.mem h.nextPtr = some v
        ∧ h'.mem ps = some v
        ∧ (∀ q, q ≠ h.nextPtr → h'.mem q = h.mem q)) := by
  constructor
  · intro pt w hpt hw
    refine ⟨{ h with mem := writeMem h.mem pt (some v) }, ?_, rfl, ?_, ?_, ?_⟩
    · simp [box_copy_assign, hs, hv, hpt, hw]
    · simp [writeMem]
    · by_cases hq : ps = pt
      · simp [writeMem, hq]
      · simpa [writeMem, hq] using hv
    · intro q hq
      simp [writeMem, hq]
  · intro hempty
    have hne : ps ≠ h.nextPtr := by
      intro hcontra
      rw [hcontra, hfresh] at hv
      exact Option.noConfusion hv
    refine ⟨{ mem := writeMem h.mem h.nextPtr (some v), nextPtr := h.nextPtr + 1 },
      ?_, rfl, ?_, ?_, ?_⟩
    · simp [box_copy_assign, hs, hv, hempty]
    · simp [writeMem]
    · simpa [writeMem, hne] using hv
    · intro q hq
      simp [writeMem, hq]

/-- Witness for `box_copy_assign_spec`: target box at cell `0` (holding
`7`), source box at cell `1` (holding `9`). -/
theorem box_copy_assign_spec_witness :
    ∃ h', box_copy_assign heap0 { ptr := some 0 } { ptr := some 1 }
        = some (h', { ptr := some 0 })
      ∧ h'.nextPtr = heap0.nextPtr
      ∧ h'.mem 0 = some 9
      ∧ h'.mem 1 = some 9
      ∧ (∀ q, q ≠ 0 → h'.mem q = heap0.mem q) :=
  (box_copy_assign_spec heap0 { ptr := some 0 } { ptr := some 1 } 1 9
    rfl rfl rfl).1 0 7 rfl rfl

/-- C3: for a non-empty box holding pointer `p`, `into_raw` returns exactly
`p` and leaves the box empty; `from_raw p` yields a box holding exactly `p`;
hence `from_raw (into_raw b)` holds exactly the pointer `b` held. -/
theorem box_into_raw_from_raw_spec (p : Ptr) :
    (BoxRepr.into_raw { ptr := some p }).1 = some p
    ∧ (BoxRepr.into_raw { ptr := some p }).2.ptr = none
    ∧ (BoxRepr.from_raw (some p)).ptr = some p
    ∧ (BoxRepr.from_raw (BoxRepr.into_raw { ptr := some p }).1).ptr
        = (BoxRepr.mk (some p)).ptr :=
  ⟨rfl, rfl, rfl, rfl⟩

end Cxx
